import Mathlib

/-!
Verification of the client-side data loader in `tools/frontend-data-loader.js`.

The JavaScript source is shallowly embedded below:
* JS cell values (numbers, strings, booleans, `null`, `undefined`) become the
  inductive `Cell`; JS numbers are modelled as rationals (`ℚ`), with `NaN`
  represented by `none` in `Option ℚ` at the points where the code performs
  numeric coercion (`Number(...)`) and arithmetic.
* JS `Map` objects built by `Map.set` and JS plain objects used as records are
  modelled as association lists with first-match lookup (`getA`) and
  position-preserving overwrite (`setA`), matching `Map.set` semantics.
* `async` functions that can reject are modelled with `Except String`;
  the network is an oracle function passed in as a parameter.
-/

namespace FrontendDataLoader

/-- A JavaScript cell value as it occurs in a data row or a filter constraint. -/
inductive Cell where
  | num (q : ℚ)
  | str (s : String)
  | boolv (b : Bool)
  | nullv
  | undef
deriving DecidableEq, Repr

/-- JS truthiness of a cell value (`0`, `""`, `false`, `null`, `undefined` are falsy). -/
def Cell.truthy : Cell → Bool
  | .num q => q != 0
  | .str s => s != ""
  | .boolv b => b
  | .nullv => false
  | .undef => false

/-- Models the JS expression `cell || 0`: a falsy cell is replaced by the number `0`. -/
def Cell.orZero (c : Cell) : Cell :=
  if c.truthy then c else Cell.num 0

/-- Fragment of the JS `Number(string)` coercion covering the string forms that
occur in this development: the empty string coerces to `0`, an (optionally
negated) run of decimal digits coerces to the corresponding integer, and every
other string — in particular every non-numeric string such as `"abc"` — coerces
to `NaN` (`none`). -/
def jsStringToNumber (s : String) : Option ℚ :=
  match s.toList with
  | [] => some 0
  | c :: cs =>
      if c = '-' then (digitsToNat? cs).map (fun n => -(n : ℚ))
      else (digitsToNat? (c :: cs)).map (fun n => (n : ℚ))
where
  digitsToNat? (l : List Char) : Option Nat :=
    if l ≠ [] ∧ l.all Char.isDigit then
      some (l.foldl (fun n c => n * 10 + (c.toNat - 48)) 0)
    else none

/-- The JS `Number(...)` coercion on cell values; `none` is `NaN`. -/
def Cell.toNumber : Cell → Option ℚ
  | .num q => some q
  | .str s => jsStringToNumber s
  | .boolv b => some (if b then 1 else 0)
  | .nullv => some 0
  | .undef => none

/-- The value of a filter constraint: a scalar cell or an array of cells
(`Object.entries` also yields `null`/`undefined` values, embedded as
`cellv .nullv` / `cellv .undef`). -/
inductive FilterVal where
  | cellv (c : Cell)
  | arr (a : List Cell)
deriving DecidableEq, Repr

/-- A data row: cells aligned positionally with the slice's column list. -/
abbrev Row := List Cell

/-- A filter-state / filter-mapping object, as an insertion-ordered association
list (JS object property order). -/
abbrev FilterState := List (String × FilterVal)

/-- First-match lookup in an association list (JS `Map.get` / property read). -/
def getA {α : Type} : List (String × α) → String → Option α
  | [], _ => none
  | (k', v') :: rest, k => if k' = k then some v' else getA rest k

/-- Insert-or-overwrite in an association list, keeping the original position of
an existing key (JS `Map.set` / property write). -/
def setA {α : Type} : List (String × α) → String → α → List (String × α)
  | [], k, v => [(k, v)]
  | (k', v') :: rest, k, v =>
      if k' = k then (k, v) :: rest else (k', v') :: setA rest k v

theorem getA_setA_self {α : Type} (l : List (String × α)) (k : String) (v : α) :
    getA (setA l k v) k = some v := by
  induction l with
  | nil => simp [setA, getA]
  | cons p rest ih =>
      obtain ⟨k', v'⟩ := p
      by_cases h : k' = k
      · simp [setA, getA, h]
      · simp [setA, getA, h, ih]

theorem getA_setA_ne {α : Type} (l : List (String × α)) (k k' : String) (v : α)
    (h : k' ≠ k) : getA (setA l k v) k' = getA l k' := by
  have hk : ¬(k = k') := fun hh => h hh.symm
  induction l with
  | nil => simp [setA, getA, hk]
  | cons p rest ih =>
      obtain ⟨k0, v0⟩ := p
      by_cases h0 : k0 = k
      · subst h0
        simp [setA, getA, hk]
      · simp [setA, getA, h0, ih]

/-- Embeds `createColumnIndex` (source lines 76–80): builds the name → position
map with `Map.set`, so a duplicated column name keeps the last position. -/
def createColumnIndex (columns : List String) : List (String × Nat) :=
  columns.enum.foldl (fun index p => setA index p.2 p.1) []

/-- The JS read `row[columnIndex.get(column)]`: a missing index or an
out-of-range position yields `undefined`. -/
def getCell (row : Row) (idx : Option Nat) : Cell :=
  match idx with
  | none => Cell.undef
  | some i => row.getD i Cell.undef

/-- One constraint check from the `entries.every` callback of `filterRows`
(source lines 90–98): an unknown column is a no-op, an array value matches when
empty or containing the cell, a scalar matches when it is `''` or equals the
cell. -/
def constraintMatches (columnIndex : List (String × Nat)) (row : Row)
    (column : String) (value : FilterVal) : Bool :=
  match getA columnIndex column with
  | none => true
  | some idx =>
      let cell := row.getD idx Cell.undef
      match value with
      | .arr a => a.isEmpty || a.contains cell
      | .cellv c => (c == Cell.str "") || (cell == c)

/-- The `entries` computation of `filterRows` (source line 87): constraints
whose value is `null`/`undefined` or the empty string are dropped. -/
def activeEntries (filters : FilterState) : FilterState :=
  filters.filter (fun p =>
    !(p.2 == FilterVal.cellv Cell.nullv) && !(p.2 == FilterVal.cellv Cell.undef)
      && !(p.2 == FilterVal.cellv (Cell.str "")))

/-- Embeds `filterRows` (source lines 86–100). -/
def filterRows (columnIndex : List (String × Nat)) (rows : List Row)
    (filters : FilterState) : List Row :=
  if (activeEntries filters).isEmpty then rows
  else rows.filter (fun row =>
    (activeEntries filters).all (fun p => constraintMatches columnIndex row p.1 p.2))

/-! ## Pivot aggregator (`buildPivot`, source lines 105–124) -/

/-- A pivot metric: display name, source column, and reducer tag (`"sum"` or
`"avg"`; any other tag falls into the `sum` branch of the JS ternary). -/
structure Metric where
  name : String
  source : String
  reducer : String
deriving DecidableEq, Repr

/-- One pivot bucket, as created at source line 111: the group key, the running
metric values (a JS object, embedded as an association list into `Option ℚ`
where `none` is `NaN`), and the contributing rows. -/
structure Bucket where
  key : String
  values : List (String × Option ℚ)
  rows : List Row
deriving DecidableEq, Repr

/-- JS `+` on possibly-`NaN` numbers: `NaN` absorbs. -/
def optAdd : Option ℚ → Option ℚ → Option ℚ
  | some a, some b => some (a + b)
  | _, _ => none

/-- The running total a JS `+=` loop produces over a list of possibly-`NaN`
addends, starting from `0`. -/
def optSum (l : List (Option ℚ)) : Option ℚ :=
  l.foldl optAdd (some 0)

/-- The string a cell contributes to the group key via `Array.prototype.join`
after the `?? '∅'` substitution of source line 108. -/
def keyPart (columnIndex : List (String × Nat)) (row : Row) (column : String) : String :=
  match getCell row (getA columnIndex column) with
  | .nullv => "∅"
  | .undef => "∅"
  | .num q => toString q
  | .str s => s
  | .boolv b => if b then "true" else "false"

/-- The group key of source line 108: the `groupBy` cells joined with `¦`. -/
def groupKey (columnIndex : List (String × Nat)) (groupBy : List String)
    (row : Row) : String :=
  String.intercalate "¦" (groupBy.map (keyPart columnIndex row))

/-- `Number(row[columnIndex.get(metric.source)] || 0)` of source line 117. -/
def cellNumber (columnIndex : List (String × Nat)) (source : String)
    (row : Row) : Option ℚ :=
  ((getCell row (getA columnIndex source)).orZero).toNumber

/-- The addend of source lines 118–120: the coerced cell value, divided by the
total row count when the reducer is `avg`. -/
def metricDelta (columnIndex : List (String × Nat)) (denom : Nat) (row : Row)
    (m : Metric) : Option ℚ :=
  if m.reducer = "avg" then
    (cellNumber columnIndex m.source row).map (fun q => q / (denom : ℚ))
  else cellNumber columnIndex m.source row

/-- The `for (const metric of metrics)` loop body of source lines 116–121. -/
def addMetrics (columnIndex : List (String × Nat)) (denom : Nat) (row : Row)
    (metrics : List Metric) (vs : List (String × Option ℚ)) :
    List (String × Option ℚ) :=
  metrics.foldl
    (fun vs m =>
      setA vs m.name (optAdd ((getA vs m.name).getD none)
        (metricDelta columnIndex denom row m)))
    vs

/-- The zero-initialized metric record of source line 112. -/
def initValues (metrics : List Metric) : List (String × Option ℚ) :=
  metrics.foldl (fun vs m => setA vs m.name (some 0)) []

/-- What one loop iteration of `buildPivot` does to the bucket it selected:
push the row and accumulate every metric. -/
def updateBucket (columnIndex : List (String × Nat)) (denom : Nat)
    (metrics : List Metric) (row : Row) (b : Bucket) : Bucket :=
  { b with
    rows := b.rows ++ [row],
    values := addMetrics columnIndex denom row metrics b.values }

/-- One iteration of the `for (const row of rows)` loop of `buildPivot`
(source lines 107–122): find or create the bucket for the row's group key,
then update it. The `Map` is embedded as an insertion-ordered list of buckets
with pairwise distinct keys. -/
def pivotStep (columnIndex : List (String × Nat)) (groupBy : List String)
    (denom : Nat) (metrics : List Metric) (table : List Bucket) (row : Row) :
    List Bucket :=
  let key := groupKey columnIndex groupBy row
  if table.any (fun b => b.key == key) then
    table.map (fun b =>
      if b.key == key then updateBucket columnIndex denom metrics row b else b)
  else
    table ++ [updateBucket columnIndex denom metrics row
      { key := key, values := initValues metrics, rows := [] }]

/-- Embeds `buildPivot` (source lines 105–124); `Array.from(table.values())`
is the insertion-ordered bucket list the fold produces. -/
def buildPivot (rows : List Row) (columnIndex : List (String × Nat))
    (groupBy : List String) (metrics : List Metric) : List Bucket :=
  rows.foldl (pivotStep columnIndex groupBy rows.length metrics) []

/-! ## Metadata, signatures and the data store (source lines 38–48, 130–160) -/

/-- A decoded partition slice: `{ columns, data }`. -/
structure Slice where
  columns : List String
  data : List Row
deriving DecidableEq, Repr

/-- An entry of `metadata.partitions`: the partition's fixed filter mapping and
its relative path. -/
structure PartitionDescriptor where
  filters : FilterState
  path : String
deriving DecidableEq, Repr

/-- The dataset manifest, `index.json` (the `filters` dropdown map is unused by
the embedded code paths and omitted). -/
structure Metadata where
  partitions : List PartitionDescriptor
  format : String
deriving DecidableEq, Repr

/-- `JSON.stringify` on a cell occurring inside an array value
(`undefined` array elements serialize as `null`). -/
def stringifyCell : Cell → String
  | .str s => "\"" ++ s ++ "\""
  | .num q => toString q
  | .boolv b => if b then "true" else "false"
  | .nullv => "null"
  | .undef => "null"

/-- `JSON.stringify` on a filter value. -/
def stringifyVal : FilterVal → String
  | .cellv (.str s) => "\"" ++ s ++ "\""
  | .cellv (.num q) => toString q
  | .cellv (.boolv b) => if b then "true" else "false"
  | .cellv .nullv => "null"
  | .cellv .undef => ""
  | .arr a => "[" ++ String.intercalate "," (a.map stringifyCell) ++ "]"

/-- `JSON.stringify` on a filter mapping, as used for the partition index key
(source line 44) and the cache key (source line 137): properties are emitted in
the object's insertion order, `undefined`-valued properties are omitted.
Fragment: string contents are emitted without escape processing, which
coincides with `JSON.stringify` for the values appearing here. -/
def stringifyFilters (filters : FilterState) : String :=
  "\x7b" ++ String.intercalate ","
    ((filters.filter (fun p => !(p.2 == FilterVal.cellv Cell.undef))).map
      (fun p => "\"" ++ p.1 ++ "\":" ++ stringifyVal p.2)) ++ "\x7d"

/-- The partition index built by `fetchMetadata` (source lines 42–46):
`Map.set` keyed by the stringified filter mapping. -/
def partitionsByFilter (partitions : List PartitionDescriptor) :
    List (String × PartitionDescriptor) :=
  partitions.foldl (fun m p => setA m (stringifyFilters p.filters) p) []

/-- `Promise.all` over a list of fallible downloads: all results, or the first
failure. -/
def collectExcept : List (Except String Slice) → Except String (List Slice)
  | [] => .ok []
  | .error e :: _ => .error e
  | .ok s :: rest => (collectExcept rest).map (fun l => s :: l)

/-- Embeds `mergeSlices` (source lines 155–160): the first slice's columns and
the concatenation of every slice's rows. -/
def mergeSlices : List Slice → Slice
  | [] => { columns := [], data := [] }
  | s :: rest => { columns := s.columns, data := ((s :: rest).map Slice.data).flatten }

/-- The mutable state `createDataStore` closes over that the partition
resolution touches: the download cache keyed by filter signature. -/
structure StoreState where
  cache : List (String × Slice)
deriving DecidableEq, Repr

/-- Embeds `ensurePartitions` (source lines 136–153). The network is the
`fetch` oracle standing for `loadPartitionSlice` (source lines 55–71), whose
`.error` case is a non-success transport status; a rejected `await` propagates
as `.error` and leaves the cache untouched. The returned `Nat` counts how many
partition downloads were started. -/
def ensurePartitions (meta : Metadata)
    (fetch : PartitionDescriptor → Except String Slice) (st : StoreState)
    (filters : FilterState) : Except String Slice × StoreState × Nat :=
  match getA st.cache (stringifyFilters filters) with
  | some slice => (.ok slice, st, 0)
  | none =>
      match getA (partitionsByFilter meta.partitions) (stringifyFilters filters) with
      | none =>
          match collectExcept (meta.partitions.map fetch) with
          | .error e => (.error e, st, meta.partitions.length)
          | .ok downloads =>
              let combined := mergeSlices downloads
              (.ok combined,
                ⟨setA st.cache (stringifyFilters filters) combined⟩,
                meta.partitions.length)
      | some partition =>
          match fetch partition with
          | .error e => (.error e, st, 1)
          | .ok slice =>
              (.ok slice, ⟨setA st.cache (stringifyFilters filters) slice⟩, 1)

/-- Embeds `getRows` (source lines 162–166): resolve the slice, then filter it;
a rejected resolution propagates to the caller of
`bootstrap` / `setFilters` / `query`, which all delegate here. -/
def getRows (meta : Metadata)
    (fetch : PartitionDescriptor → Except String Slice) (st : StoreState)
    (filters : FilterState) :
    Except String (List (String × Nat) × List Row) × StoreState × Nat :=
  match ensurePartitions meta fetch st filters with
  | (.error e, st', n) => (.error e, st', n)
  | (.ok slice, st', n) =>
      let columnIndex := createColumnIndex slice.columns
      (.ok (columnIndex, filterRows columnIndex slice.data filters), st', n)

/-! ## Helper lemmas -/

theorem optSum_nil : optSum [] = some 0 := rfl

theorem optSum_append_one (l : List (Option ℚ)) (x : Option ℚ) :
    optSum (l ++ [x]) = optAdd (optSum l) x := by
  simp [optSum, List.foldl_append]

theorem foldl_optAdd_some (l : List (Option ℚ)) (h : ∀ x ∈ l, x.isSome) (a : ℚ) :
    l.foldl optAdd (some a) = some (a + (l.map (fun x => x.getD 0)).sum) := by
  induction l generalizing a with
  | nil => simp
  | cons x xs ih =>
      obtain ⟨q, rfl⟩ := Option.isSome_iff_exists.mp (h x (List.mem_cons_self x xs))
      have hxs : ∀ y ∈ xs, y.isSome := fun y hy => h y (List.mem_cons_of_mem _ hy)
      have := ih hxs (a + q)
      simp only [List.foldl_cons, optAdd, this, List.map_cons, List.sum_cons,
        Option.getD_some]
      ring_nf

theorem optSum_all_some (l : List (Option ℚ)) (h : ∀ x ∈ l, x.isSome) :
    optSum l = some ((l.map (fun x => x.getD 0)).sum) := by
  simpa [optSum] using foldl_optAdd_some l h 0

theorem list_sum_div (l : List ℚ) (c : ℚ) :
    (l.map (fun q => q / c)).sum = l.sum / c := by
  induction l with
  | nil => simp
  | cons x xs ih => simp [ih, add_div]

theorem mergeSlices_length (slices : List Slice) :
    (mergeSlices slices).data.length = (slices.map (fun s => s.data.length)).sum := by
  cases slices with
  | nil => rfl
  | cons s rest =>
      simp only [mergeSlices, List.length_flatten, List.map_map, List.map_cons,
        List.sum_cons]
      rfl

/-- Metrics whose name is not `n` never touch the `n` entry of the value
record. -/
theorem getA_addMetrics_not_mem (columnIndex : List (String × Nat)) (denom : Nat)
    (row : Row) (metrics : List Metric) (vs : List (String × Option ℚ))
    (n : String) (h : n ∉ metrics.map Metric.name) :
    getA (addMetrics columnIndex denom row metrics vs) n = getA vs n := by
  induction metrics generalizing vs with
  | nil => rfl
  | cons m0 rest ih =>
      have hn0 : n ≠ m0.name := by
        intro hh
        exact h (by simp [hh])
      have hrest : n ∉ rest.map Metric.name := by
        intro hh
        exact h (by simp [hh])
      show getA (addMetrics columnIndex denom row rest _) n = getA vs n
      rw [ih _ hrest, getA_setA_ne _ _ _ _ hn0]

/-- Under distinct metric names, the metric loop performs exactly one `+=` on
the entry of metric `m`. -/
theorem getA_addMetrics (columnIndex : List (String × Nat)) (denom : Nat)
    (row : Row) (metrics : List Metric) (vs : List (String × Option ℚ))
    (m : Metric) (hm : m ∈ metrics) (hnd : (metrics.map Metric.name).Nodup) :
    getA (addMetrics columnIndex denom row metrics vs) m.name =
      some (optAdd ((getA vs m.name).getD none) (metricDelta columnIndex denom row m)) := by
  induction metrics generalizing vs with
  | nil => cases hm
  | cons m0 rest ih =>
      rw [List.map_cons] at hnd
      have hnd' := List.nodup_cons.mp hnd
      rcases List.mem_cons.mp hm with heq | hmem
      · subst heq
        show getA (addMetrics columnIndex denom row rest _) m.name = _
        rw [getA_addMetrics_not_mem _ _ _ _ _ _ hnd'.1, getA_setA_self]
      · have hne : m.name ≠ m0.name := by
          intro hh
          exact hnd'.1 (hh ▸ List.mem_map_of_mem Metric.name hmem)
        show getA (addMetrics columnIndex denom row rest _) m.name = _
        rw [ih _ hmem hnd'.2, getA_setA_ne _ _ _ _ hne]

theorem getA_initValues_aux (metrics : List Metric)
    (vs : List (String × Option ℚ)) (n : String)
    (h : getA vs n = some (some 0) ∨ n ∈ metrics.map Metric.name) :
    getA (metrics.foldl (fun a mm => setA a mm.name (some 0)) vs) n = some (some 0) := by
  induction metrics generalizing vs with
  | nil =>
      rcases h with h | h
      · exact h
      · cases h
  | cons m0 rest ih =>
      show getA (rest.foldl _ (setA vs m0.name (some 0))) n = _
      by_cases hn : n = m0.name
      · subst hn
        exact ih _ (Or.inl (getA_setA_self _ _ _))
      · refine ih _ ?_
        rw [getA_setA_ne _ _ _ _ hn]
        rcases h with h | h
        · exact Or.inl h
        · rw [List.map_cons] at h
          rcases List.mem_cons.mp h with hh | hh
          · exact absurd hh hn
          · exact Or.inr hh

theorem getA_initValues (metrics : List Metric) (m : Metric) (hm : m ∈ metrics) :
    getA (initValues metrics) m.name = some (some 0) :=
  getA_initValues_aux metrics [] m.name (Or.inr (List.mem_map_of_mem Metric.name hm))

/-- The per-bucket accounting invariant: the recorded value of metric `m` is
the NaN-propagating sum of the metric's addend over the bucket's rows. -/
def BucketAccounts (columnIndex : List (String × Nat)) (denom : Nat)
    (m : Metric) (b : Bucket) : Prop :=
  getA b.values m.name =
    some (optSum (b.rows.map (fun r => metricDelta columnIndex denom r m)))

theorem updateBucket_accounts (columnIndex : List (String × Nat)) (denom : Nat)
    (metrics : List Metric) (row : Row) (m : Metric) (hm : m ∈ metrics)
    (hnd : (metrics.map Metric.name).Nodup) (b : Bucket)
    (hb : BucketAccounts columnIndex denom m b) :
    BucketAccounts columnIndex denom m (updateBucket columnIndex denom metrics row b) := by
  unfold BucketAccounts updateBucket at *
  simp only
  rw [getA_addMetrics _ _ _ _ _ _ hm hnd, hb]
  simp [List.map_append, optSum_append_one]

theorem fresh_bucket_accounts (columnIndex : List (String × Nat)) (denom : Nat)
    (metrics : List Metric) (m : Metric) (hm : m ∈ metrics) (key : String) :
    BucketAccounts columnIndex denom m
      { key := key, values := initValues metrics, rows := [] } := by
  unfold BucketAccounts
  simpa using getA_initValues metrics m hm

theorem pivotStep_accounts (columnIndex : List (String × Nat))
    (groupBy : List String) (denom : Nat) (metrics : List Metric) (m : Metric)
    (hm : m ∈ metrics) (hnd : (metrics.map Metric.name).Nodup)
    (table : List Bucket) (row : Row)
    (h : ∀ b ∈ table, BucketAccounts columnIndex denom m b) :
    ∀ b ∈ pivotStep columnIndex groupBy denom metrics table row,
      BucketAccounts columnIndex denom m b := by
  intro b hb
  unfold pivotStep at hb
  simp only at hb
  split at hb
  · obtain ⟨b0, hb0, rfl⟩ := List.mem_map.mp hb
    by_cases hk : b0.key == groupKey columnIndex groupBy row
    · simpa [hk] using updateBucket_accounts _ _ _ _ _ hm hnd _ (h b0 hb0)
    · simpa [hk] using h b0 hb0
  · rcases List.mem_append.mp hb with hmem | hmem
    · exact h b hmem
    · rcases List.mem_singleton.mp hmem with rfl
      exact updateBucket_accounts _ _ _ _ _ hm hnd _
        (fresh_bucket_accounts _ _ _ _ hm _)

theorem foldl_pivotStep_accounts (columnIndex : List (String × Nat))
    (groupBy : List String) (denom : Nat) (metrics : List Metric) (m : Metric)
    (hm : m ∈ metrics) (hnd : (metrics.map Metric.name).Nodup) :
    ∀ (rows' : List Row) (table : List Bucket),
      (∀ b ∈ table, BucketAccounts columnIndex denom m b) →
      ∀ b ∈ rows'.foldl (pivotStep columnIndex groupBy denom metrics) table,
        BucketAccounts columnIndex denom m b := by
  intro rows'
  induction rows' with
  | nil => intro table h b hb; exact h b hb
  | cons r rs ih =>
      intro table h b hb
      exact ih _ (pivotStep_accounts _ _ _ _ _ hm hnd _ _ h) b hb

/-- Master accounting lemma for `buildPivot`: under pairwise-distinct metric
names, every output bucket records, for each metric, the NaN-propagating sum of
that metric's addend over exactly the bucket's own rows, with the divisor of
the `avg` addend fixed to the length of the whole input row list. -/
theorem buildPivot_values (rows : List Row) (columnIndex : List (String × Nat))
    (groupBy : List String) (metrics : List Metric) (m : Metric)
    (hm : m ∈ metrics) (hnd : (metrics.map Metric.name).Nodup)
    (b : Bucket) (hb : b ∈ buildPivot rows columnIndex groupBy metrics) :
    getA b.values m.name =
      some (optSum (b.rows.map (fun r => metricDelta columnIndex rows.length r m))) :=
  foldl_pivotStep_accounts columnIndex groupBy rows.length metrics m hm hnd rows []
    (by intro b hb; cases hb) b hb

theorem pivotStep_rows_pred (columnIndex : List (String × Nat))
    (groupBy : List String) (denom : Nat) (metrics : List Metric)
    (P : Row → Prop) (table : List Bucket) (row : Row)
    (h : ∀ b ∈ table, ∀ r ∈ b.rows, P r) (hrow : P row) :
    ∀ b ∈ pivotStep columnIndex groupBy denom metrics table row,
      ∀ r ∈ b.rows, P r := by
  intro b hb
  unfold pivotStep at hb
  simp only at hb
  have hupd : ∀ b0 : Bucket, (∀ r ∈ b0.rows, P r) →
      ∀ r ∈ (updateBucket columnIndex denom metrics row b0).rows, P r := by
    intro b0 h0 r hr
    rcases List.mem_append.mp hr with hr | hr
    · exact h0 r hr
    · rcases List.mem_singleton.mp hr with rfl
      exact hrow
  split at hb
  · obtain ⟨b0, hb0, rfl⟩ := List.mem_map.mp hb
    by_cases hk : b0.key == groupKey columnIndex groupBy row
    · simpa [hk] using hupd b0 (h b0 hb0)
    · simpa [hk] using h b0 hb0
  · rcases List.mem_append.mp hb with hmem | hmem
    · exact h b hmem
    · rcases List.mem_singleton.mp hmem with rfl
      exact hupd _ (by intro r hr; cases hr)

theorem foldl_pivotStep_rows_pred (columnIndex : List (String × Nat))
    (groupBy : List String) (denom : Nat) (metrics : List Metric)
    (P : Row → Prop) :
    ∀ (rows' : List Row) (table : List Bucket),
      (∀ b ∈ table, ∀ r ∈ b.rows, P r) → (∀ r ∈ rows', P r) →
      ∀ b ∈ rows'.foldl (pivotStep columnIndex groupBy denom metrics) table,
        ∀ r ∈ b.rows, P r := by
  intro rows'
  induction rows' with
  | nil => intro table h _ b hb; exact h b hb
  | cons r rs ih =>
      intro table h hrows b hb
      refine ih _ ?_ (fun r' hr' => hrows r' (List.mem_cons_of_mem r hr')) b hb
      exact pivotStep_rows_pred _ _ _ _ P table r h (hrows r (List.mem_cons_self r rs))

/-- Every row stored in an output bucket came from the input row list. -/
theorem buildPivot_rows_mem (rows : List Row) (columnIndex : List (String × Nat))
    (groupBy : List String) (metrics : List Metric) (b : Bucket)
    (hb : b ∈ buildPivot rows columnIndex groupBy metrics) :
    ∀ r ∈ b.rows, r ∈ rows :=
  foldl_pivotStep_rows_pred columnIndex groupBy rows.length metrics (· ∈ rows)
    rows [] (by intro b hb; cases hb) (fun _ hr => hr) b hb

theorem constraintMatches_arr_nil (columnIndex : List (String × Nat)) (row : Row)
    (column : String) :
    constraintMatches columnIndex row column (FilterVal.arr []) = true := by
  unfold constraintMatches
  cases getA columnIndex column <;> simp

/-! ## Claims about the filter engine -/

/-- C7: for every filter state in which every constraint value is empty
(`''` or `[]`), null/undefined, or absent, `filterRows` returns its input row
list unchanged. -/
theorem empty_filter_state_is_identity (columnIndex : List (String × Nat))
    (rows : List Row) (filters : FilterState)
    (h : ∀ p ∈ filters, p.2 = FilterVal.cellv Cell.nullv ∨
      p.2 = FilterVal.cellv Cell.undef ∨ p.2 = FilterVal.cellv (Cell.str "") ∨
      p.2 = FilterVal.arr []) :
    filterRows columnIndex rows filters = rows := by
  by_cases he : (activeEntries filters).isEmpty
  · simp [filterRows, he]
  · have hall : ∀ row ∈ rows,
        ((activeEntries filters).all
          (fun p => constraintMatches columnIndex row p.1 p.2)) = true := by
      intro row _
      rw [List.all_eq_true]
      intro p hp
      have hmem := List.mem_filter.mp hp
      rcases h p hmem.1 with h1 | h1 | h1 | h1
      · exact absurd hmem.2 (by simp [h1])
      · exact absurd hmem.2 (by simp [h1])
      · exact absurd hmem.2 (by simp [h1])
      · rw [h1]
        exact constraintMatches_arr_nil columnIndex row p.1
    simp only [filterRows, he, if_false, Bool.false_eq_true]
    exact List.filter_eq_self.mpr hall

/-- C7 witness: a filter state holding a null constraint, an empty-string
constraint and an empty-array constraint leaves a concrete row list unchanged. -/
theorem empty_filter_state_is_identity_w :
    (∀ p ∈ ([("date", FilterVal.cellv Cell.nullv),
        ("store", FilterVal.cellv (Cell.str "")),
        ("asin", FilterVal.arr [])] : FilterState),
      p.2 = FilterVal.cellv Cell.nullv ∨ p.2 = FilterVal.cellv Cell.undef ∨
        p.2 = FilterVal.cellv (Cell.str "") ∨ p.2 = FilterVal.arr []) ∧
    filterRows (createColumnIndex ["date", "store"])
      [[Cell.str "2024-01", Cell.str "A"], [Cell.str "2024-02", Cell.str "B"]]
      [("date", FilterVal.cellv Cell.nullv),
        ("store", FilterVal.cellv (Cell.str "")),
        ("asin", FilterVal.arr [])] =
      [[Cell.str "2024-01", Cell.str "A"], [Cell.str "2024-02", Cell.str "B"]] :=
  ⟨by decide,
    empty_filter_state_is_identity (createColumnIndex ["date", "store"])
      [[Cell.str "2024-01", Cell.str "A"], [Cell.str "2024-02", Cell.str "B"]]
      [("date", FilterVal.cellv Cell.nullv),
        ("store", FilterVal.cellv (Cell.str "")),
        ("asin", FilterVal.arr [])] (by decide)⟩

/-- C8: a constraint whose column is absent from the column index never
excludes a row — the constraint check returns `true` for every row and every
constraint value (fail open). -/
theorem absent_column_constraint_is_noop (columnIndex : List (String × Nat))
    (row : Row) (column : String) (value : FilterVal)
    (h : getA columnIndex column = none) :
    constraintMatches columnIndex row column value = true := by
  simp [constraintMatches, h]

/-- C8 witness: a constraint on a column that is not in the schema matches a
concrete row even though the row could never satisfy it literally. -/
theorem absent_column_constraint_is_noop_w :
    getA (createColumnIndex ["date"]) "category" = none ∧
    constraintMatches (createColumnIndex ["date"]) [Cell.str "2024-01"]
      "category" (FilterVal.cellv (Cell.str "nope")) = true :=
  ⟨by decide,
    absent_column_constraint_is_noop (createColumnIndex ["date"])
      [Cell.str "2024-01"] "category" (FilterVal.cellv (Cell.str "nope"))
      (by decide)⟩

/-- C9: for an array-valued constraint on a column present in the schema, the
row matches exactly when the array is empty or the row's cell for that column
is one of the array's elements. -/
theorem array_constraint_matches_iff (columnIndex : List (String × Nat))
    (row : Row) (column : String) (a : List Cell) (idx : Nat)
    (h : getA columnIndex column = some idx) :
    (constraintMatches columnIndex row column (FilterVal.arr a) = true) ↔
      (a = [] ∨ row.getD idx Cell.undef ∈ a) := by
  simp [constraintMatches, h, List.isEmpty_iff]

/-- C9 witness: with column `store` at position 0, the constraint `["A","B"]`
matches a row whose cell is `"B"`, and the empty array matches it as well. -/
theorem array_constraint_matches_iff_w :
    getA (createColumnIndex ["store"]) "store" = some 0 ∧
    constraintMatches (createColumnIndex ["store"]) [Cell.str "B"] "store"
      (FilterVal.arr [Cell.str "A", Cell.str "B"]) = true ∧
    constraintMatches (createColumnIndex ["store"]) [Cell.str "B"] "store"
      (FilterVal.arr []) = true :=
  ⟨by decide,
    (array_constraint_matches_iff (createColumnIndex ["store"]) [Cell.str "B"]
      "store" [Cell.str "A", Cell.str "B"] 0 (by decide)).mpr
      (Or.inr (by decide)),
    (array_constraint_matches_iff (createColumnIndex ["store"]) [Cell.str "B"]
      "store" [] 0 (by decide)).mpr (Or.inl rfl)⟩

theorem optSum_const_zero (l : List (Option ℚ)) (h : ∀ x ∈ l, x = some 0) :
    optSum l = some 0 := by
  induction l with
  | nil => rfl
  | cons x xs ih =>
      have hx := h x (List.mem_cons_self x xs)
      have : optSum (x :: xs) = optSum xs := by
        simp [optSum, hx, optAdd]
      rw [this]
      exact ih (fun y hy => h y (List.mem_cons_of_mem _ hy))

/-! ## Claims about the pivot aggregator -/

/-- C2: for a non-empty filtered row set and an `avg` metric over cells that
coerce to numbers, every group's recorded value is the sum of its own rows'
coerced cell values divided by the length of the whole filtered row set — not
by the group's own row count. -/
theorem avg_divides_by_total_row_count (rows : List Row)
    (columnIndex : List (String × Nat)) (groupBy : List String)
    (metrics : List Metric) (m : Metric) (hm : m ∈ metrics)
    (hnd : (metrics.map Metric.name).Nodup) (havg : m.reducer = "avg")
    (_hne : rows ≠ [])
    (hnum : ∀ r ∈ rows, (cellNumber columnIndex m.source r).isSome)
    (b : Bucket) (hb : b ∈ buildPivot rows columnIndex groupBy metrics) :
    getA b.values m.name =
      some (some ((b.rows.map (fun r => (cellNumber columnIndex m.source r).getD 0)).sum
        / (rows.length : ℚ))) := by
  have h1 := buildPivot_values rows columnIndex groupBy metrics m hm hnd b hb
  have hsub := buildPivot_rows_mem rows columnIndex groupBy metrics b hb
  have hdelta : ∀ r ∈ b.rows,
      metricDelta columnIndex rows.length r m
        = some ((cellNumber columnIndex m.source r).getD 0 / (rows.length : ℚ)) := by
    intro r hr
    obtain ⟨q, hq⟩ := Option.isSome_iff_exists.mp (hnum r (hsub r hr))
    unfold metricDelta
    rw [havg, if_pos rfl, hq]
    simp [hq]
  have hsome : ∀ x ∈ b.rows.map (fun r =>
      (some ((cellNumber columnIndex m.source r).getD 0 / (rows.length : ℚ)) : Option ℚ)),
      x.isSome := by
    intro x hx
    obtain ⟨r, hr, rfl⟩ := List.mem_map.mp hx
    rfl
  rw [h1, List.map_congr_left hdelta, optSum_all_some _ hsome, List.map_map]
  have hcomp : b.rows.map
      ((fun x : Option ℚ => x.getD 0) ∘ (fun r =>
        (some ((cellNumber columnIndex m.source r).getD 0 / (rows.length : ℚ)) : Option ℚ)))
      = (b.rows.map (fun r => (cellNumber columnIndex m.source r).getD 0)).map
          (fun q => q / (rows.length : ℚ)) := by
    rw [List.map_map]
    rfl
  rw [hcomp, list_sum_div]

/-- C2 witness: rows with x-values 1, 3 in group `a` and 2 in group `b`, three
rows total: the `avg` value of group `a` is (1 + 3) / 3 = 4/3, not the
per-group mean 2. -/
theorem avg_divides_by_total_row_count_w :
    (Bucket.mk "a" [("A", some ((4 : ℚ) / 3))]
        [[Cell.num 1, Cell.str "a"], [Cell.num 3, Cell.str "a"]]) ∈
      buildPivot
        [[Cell.num 1, Cell.str "a"], [Cell.num 2, Cell.str "b"], [Cell.num 3, Cell.str "a"]]
        (createColumnIndex ["x", "g"]) ["g"] [Metric.mk "A" "x" "avg"] ∧
    getA (Bucket.mk "a" [("A", some ((4 : ℚ) / 3))]
        [[Cell.num 1, Cell.str "a"], [Cell.num 3, Cell.str "a"]]).values "A" =
      some (some (((Bucket.mk "a" [("A", some ((4 : ℚ) / 3))]
          [[Cell.num 1, Cell.str "a"], [Cell.num 3, Cell.str "a"]]).rows.map
            (fun r => (cellNumber (createColumnIndex ["x", "g"]) "x" r).getD 0)).sum
        / (([[Cell.num 1, Cell.str "a"], [Cell.num 2, Cell.str "b"],
            [Cell.num 3, Cell.str "a"]] : List Row).length : ℚ))) :=
  ⟨by
    norm_num [buildPivot, pivotStep, updateBucket, addMetrics, initValues, groupKey,
      keyPart, getCell, cellNumber, metricDelta, getA, setA, optAdd, optSum,
      createColumnIndex, Cell.orZero, Cell.truthy, Cell.toNumber, List.foldl,
      List.enum, String.intercalate, String.intercalate.go,
      show ("x" : String) ≠ "g" by decide, show ("g" : String) ≠ "x" by decide,
      show ("a" : String) ≠ "b" by decide, show ("b" : String) ≠ "a" by decide],
    avg_divides_by_total_row_count
      [[Cell.num 1, Cell.str "a"], [Cell.num 2, Cell.str "b"], [Cell.num 3, Cell.str "a"]]
      (createColumnIndex ["x", "g"]) ["g"] [Metric.mk "A" "x" "avg"]
      (Metric.mk "A" "x" "avg") (by decide) (by decide) rfl (by decide)
      (by decide)
      (Bucket.mk "a" [("A", some ((4 : ℚ) / 3))]
        [[Cell.num 1, Cell.str "a"], [Cell.num 3, Cell.str "a"]])
      (by
        norm_num [buildPivot, pivotStep, updateBucket, addMetrics, initValues, groupKey,
          keyPart, getCell, cellNumber, metricDelta, getA, setA, optAdd, optSum,
          createColumnIndex, Cell.orZero, Cell.truthy, Cell.toNumber, List.foldl,
          List.enum, String.intercalate, String.intercalate.go,
          show ("x" : String) ≠ "g" by decide, show ("g" : String) ≠ "x" by decide,
          show ("a" : String) ≠ "b" by decide, show ("b" : String) ≠ "a" by decide])⟩

theorem foldl_optAdd_map_some {α : Type} (l : List α) (f : α → ℚ) (a : ℚ) :
    (l.map (fun x => some (f x))).foldl optAdd (some a) = some (a + (l.map f).sum) := by
  induction l generalizing a with
  | nil => simp
  | cons x xs ih =>
      simp only [List.map_cons, List.foldl_cons, optAdd, ih, List.sum_cons]
      rw [add_assoc]

theorem optSum_map_some {α : Type} (l : List α) (f : α → ℚ) :
    optSum (l.map (fun x => some (f x))) = some ((l.map f).sum) := by
  simpa [optSum] using foldl_optAdd_map_some l f 0

/-- C3 counterexample: a row whose cell for the metric's source column is the
non-numeric string `"abc"` does not contribute `0` — `Number("abc" || 0)` is
`NaN` (`none`), so the group's sum is `NaN` rather than `0`. -/
theorem sum_nonnumeric_cell_is_nan :
    (buildPivot [[Cell.str "abc"]] (createColumnIndex ["x"]) []
        [Metric.mk "S" "x" "sum"]).map (fun b => getA b.values "S") =
      [some none] ∧
    some (none : Option ℚ) ≠ some (some (0 : ℚ)) := by
  constructor
  · decide
  · decide

/-- C3 (amended): for a `sum` metric, every group's value is the sum of the
numeric coercions `Number(cell || 0)` of its own rows' cells — missing, null
and otherwise falsy cells coerce to `0` — provided every coercion is numeric
(a non-empty non-numeric string coerces to `NaN` and poisons the sum, see the
counterexample); in particular x-values 1, 2, 3 yield 6. -/
theorem sum_adds_coerced_numeric_cells (rows : List Row)
    (columnIndex : List (String × Nat)) (groupBy : List String)
    (metrics : List Metric) (m : Metric) (hm : m ∈ metrics)
    (hnd : (metrics.map Metric.name).Nodup) (hsum : m.reducer = "sum")
    (hnum : ∀ r ∈ rows, (cellNumber columnIndex m.source r).isSome)
    (b : Bucket) (hb : b ∈ buildPivot rows columnIndex groupBy metrics) :
    getA b.values m.name =
      some (some ((b.rows.map (fun r => (cellNumber columnIndex m.source r).getD 0)).sum)) := by
  have h1 := buildPivot_values rows columnIndex groupBy metrics m hm hnd b hb
  have hsub := buildPivot_rows_mem rows columnIndex groupBy metrics b hb
  have hdelta : ∀ r ∈ b.rows,
      metricDelta columnIndex rows.length r m
        = some ((cellNumber columnIndex m.source r).getD 0) := by
    intro r hr
    obtain ⟨q, hq⟩ := Option.isSome_iff_exists.mp (hnum r (hsub r hr))
    unfold metricDelta
    rw [hsum, if_neg (by decide), hq]
    rfl
  rw [h1, List.map_congr_left hdelta, optSum_map_some]

/-- C3 witness: the spec's example — a single group over rows with x-values
1, 2, 3 and a `sum` metric on `x` records the value 6. -/
theorem sum_adds_coerced_numeric_cells_w :
    (∀ r ∈ ([[Cell.num 1], [Cell.num 2], [Cell.num 3]] : List Row),
      (cellNumber (createColumnIndex ["x"]) "x" r).isSome) ∧
    getA (Bucket.mk "" [("S", some (6 : ℚ))]
        [[Cell.num 1], [Cell.num 2], [Cell.num 3]]).values "S" =
      some (some ((([[Cell.num 1], [Cell.num 2], [Cell.num 3]] : List Row).map
        (fun r => (cellNumber (createColumnIndex ["x"]) "x" r).getD 0)).sum)) ∧
    (([[Cell.num 1], [Cell.num 2], [Cell.num 3]] : List Row).map
        (fun r => (cellNumber (createColumnIndex ["x"]) "x" r).getD 0)).sum = 6 :=
  ⟨by decide,
    sum_adds_coerced_numeric_cells [[Cell.num 1], [Cell.num 2], [Cell.num 3]]
      (createColumnIndex ["x"]) [] [Metric.mk "S" "x" "sum"]
      (Metric.mk "S" "x" "sum") (by decide) (by decide) rfl (by decide)
      (Bucket.mk "" [("S", some (6 : ℚ))] [[Cell.num 1], [Cell.num 2], [Cell.num 3]])
      (by
        norm_num [buildPivot, pivotStep, updateBucket, addMetrics, initValues,
          groupKey, keyPart, getCell, cellNumber, metricDelta, getA, setA, optAdd,
          optSum, createColumnIndex, Cell.orZero, Cell.truthy, Cell.toNumber,
          List.foldl, List.enum, String.intercalate, String.intercalate.go,
          show ("sum" : String) ≠ "avg" by decide]),
    by
      norm_num [cellNumber, getCell, getA, setA, createColumnIndex, List.enum,
        Cell.orZero, Cell.truthy, Cell.toNumber]⟩

/-- C10: a `sum` metric whose source column is absent from the column index
never fails: every group's value for that metric is exactly `0`, because each
row contributes `Number(undefined || 0) = 0`. -/
theorem missing_source_column_sums_zero (rows : List Row)
    (columnIndex : List (String × Nat)) (groupBy : List String)
    (metrics : List Metric) (m : Metric) (hm : m ∈ metrics)
    (hnd : (metrics.map Metric.name).Nodup) (hsum : m.reducer = "sum")
    (hmiss : getA columnIndex m.source = none)
    (b : Bucket) (hb : b ∈ buildPivot rows columnIndex groupBy metrics) :
    getA b.values m.name = some (some 0) := by
  have h1 := buildPivot_values rows columnIndex groupBy metrics m hm hnd b hb
  have hdelta : ∀ r ∈ b.rows,
      metricDelta columnIndex rows.length r m = some ((fun _ : Row => (0 : ℚ)) r) := by
    intro r _
    unfold metricDelta
    rw [hsum, if_neg (by decide)]
    simp [cellNumber, hmiss, getCell, Cell.orZero, Cell.truthy, Cell.toNumber]
  rw [h1, List.map_congr_left hdelta, optSum_map_some]
  have hz : (b.rows.map (fun _ : Row => (0 : ℚ))).sum = 0 := by
    refine List.sum_eq_zero ?_
    intro x hx
    obtain ⟨r, _, rfl⟩ := List.mem_map.mp hx
    rfl
  rw [hz]

/-- C10 witness: a `sum` metric sourced from the nonexistent column `zzz` over
a one-row dataset records the value 0 instead of failing. -/
theorem missing_source_column_sums_zero_w :
    getA (createColumnIndex ["x"]) "zzz" = none ∧
    getA (Bucket.mk "" [("Z", some (0 : ℚ))] [[Cell.num 5]]).values "Z" =
      some (some 0) :=
  ⟨by decide,
    missing_source_column_sums_zero [[Cell.num 5]] (createColumnIndex ["x"]) []
      [Metric.mk "Z" "zzz" "sum"] (Metric.mk "Z" "zzz" "sum") (by decide)
      (by decide) rfl (by decide)
      (Bucket.mk "" [("Z", some (0 : ℚ))] [[Cell.num 5]])
      (by
        norm_num [buildPivot, pivotStep, updateBucket, addMetrics, initValues,
          groupKey, keyPart, getCell, cellNumber, metricDelta, getA, setA, optAdd,
          optSum, createColumnIndex, Cell.orZero, Cell.truthy, Cell.toNumber,
          List.foldl, List.enum, String.intercalate, String.intercalate.go,
          show ("sum" : String) ≠ "avg" by decide,
          show ("x" : String) ≠ "zzz" by decide])⟩

/-! ## Claims about signatures, caching and partition resolution -/

/-- C1 first mapping: `{date: "2024-01", store: "A"}` inserted date-first. -/
def fDateStore : FilterState :=
  [("date", FilterVal.cellv (Cell.str "2024-01")),
    ("store", FilterVal.cellv (Cell.str "A"))]

/-- C1 second mapping: the same mapping inserted store-first. -/
def fStoreDate : FilterState :=
  [("store", FilterVal.cellv (Cell.str "A")),
    ("date", FilterVal.cellv (Cell.str "2024-01"))]

/-- C1: the signature used for the partition index and the cache is
`JSON.stringify` of the mapping as-is, which serializes keys in insertion
order; two mappings that are equal as mappings (every key looks up to the same
value) but were inserted in different orders produce different signature
strings, refuting order-stability. -/
theorem signature_not_order_stable :
    (∀ k, getA fDateStore k = getA fStoreDate k) ∧
    stringifyFilters fDateStore ≠ stringifyFilters fStoreDate := by
  constructor
  · intro k
    by_cases h1 : "date" = k
    · subst h1
      decide
    · by_cases h2 : "store" = k
      · subst h2
        decide
      · simp [fDateStore, fStoreDate, getA, h1, h2]
  · decide

/-- Characterization of a successful resolution: the signature is now cached
with the returned slice, and every previously cached entry is still present
with its original value (entries are never evicted or replaced). -/
theorem ensurePartitions_ok_cache (meta : Metadata)
    (fetch : PartitionDescriptor → Except String Slice) (st : StoreState)
    (filters : FilterState) (s : Slice) (st' : StoreState) (n : Nat)
    (h : ensurePartitions meta fetch st filters = (.ok s, st', n)) :
    getA st'.cache (stringifyFilters filters) = some s ∧
    ∀ k v, getA st.cache k = some v → getA st'.cache k = some v := by
  cases hc : getA st.cache (stringifyFilters filters) with
  | some slice =>
      simp only [ensurePartitions, hc, Prod.mk.injEq, Except.ok.injEq] at h
      obtain ⟨rfl, rfl, rfl⟩ := h
      exact ⟨hc, fun k v hv => hv⟩
  | none =>
      cases hp : getA (partitionsByFilter meta.partitions) (stringifyFilters filters) with
      | none =>
          cases hf : collectExcept (meta.partitions.map fetch) with
          | error e => simp [ensurePartitions, hc, hp, hf] at h
          | ok downloads =>
              simp only [ensurePartitions, hc, hp, hf, Prod.mk.injEq,
                Except.ok.injEq] at h
              obtain ⟨rfl, rfl, rfl⟩ := h
              refine ⟨getA_setA_self _ _ _, ?_⟩
              intro k v hv
              have hne : k ≠ stringifyFilters filters := by
                intro heq
                rw [heq, hc] at hv
                cases hv
              show getA (setA st.cache (stringifyFilters filters) _) k = some v
              rw [getA_setA_ne _ _ _ _ hne]
              exact hv
      | some partition =>
          cases hfp : fetch partition with
          | error e => simp [ensurePartitions, hc, hp, hfp] at h
          | ok slice =>
              simp only [ensurePartitions, hc, hp, hfp, Prod.mk.injEq,
                Except.ok.injEq] at h
              obtain ⟨rfl, rfl, rfl⟩ := h
              refine ⟨getA_setA_self _ _ _, ?_⟩
              intro k v hv
              have hne : k ≠ stringifyFilters filters := by
                intro heq
                rw [heq, hc] at hv
                cases hv
              show getA (setA st.cache (stringifyFilters filters) _) k = some v
              rw [getA_setA_ne _ _ _ _ hne]
              exact hv

/-- C5: after any successful resolution, resolving the same filter state again
on the resulting store returns the very same slice and the unchanged store
while starting zero downloads; and every cache entry present before the first
resolution is still present, unreplaced, afterwards. -/
theorem resolve_twice_returns_cached_slice (meta : Metadata)
    (fetch : PartitionDescriptor → Except String Slice) (st : StoreState)
    (filters : FilterState) (s : Slice) (st' : StoreState) (n : Nat)
    (h : ensurePartitions meta fetch st filters = (.ok s, st', n)) :
    ensurePartitions meta fetch st' filters = (.ok s, st', 0) ∧
    ∀ k v, getA st.cache k = some v → getA st'.cache k = some v := by
  obtain ⟨hkey, hpres⟩ :=
    ensurePartitions_ok_cache meta fetch st filters s st' n h
  exact ⟨by simp only [ensurePartitions, hkey], hpres⟩

/-- C4: when the signature misses both the cache and the partition index, the
resolution downloads every declared partition, merges them — taking the first
partition's column sequence — caches the combined slice under the original
signature, and the combined row count is the sum of the partitions' row
counts. -/
theorem fallback_merges_all_partitions (meta : Metadata)
    (fetch : PartitionDescriptor → Except String Slice) (st : StoreState)
    (filters : FilterState) (downloads : List Slice)
    (hc : getA st.cache (stringifyFilters filters) = none)
    (hp : getA (partitionsByFilter meta.partitions) (stringifyFilters filters) = none)
    (hf : collectExcept (meta.partitions.map fetch) = .ok downloads) :
    ensurePartitions meta fetch st filters =
      (.ok (mergeSlices downloads),
        ⟨setA st.cache (stringifyFilters filters) (mergeSlices downloads)⟩,
        meta.partitions.length) ∧
    getA (setA st.cache (stringifyFilters filters) (mergeSlices downloads))
        (stringifyFilters filters) = some (mergeSlices downloads) ∧
    (mergeSlices downloads).data.length
      = (downloads.map (fun s => s.data.length)).sum ∧
    ∀ s rest, downloads = s :: rest → (mergeSlices downloads).columns = s.columns := by
  refine ⟨?_, getA_setA_self _ _ _, mergeSlices_length downloads, ?_⟩
  · simp only [ensurePartitions, hc, hp, hf]
  · intro s rest hd
    subst hd
    rfl

/-- C6: if any partition download of the fallback merge fails, the whole
resolution returns that failure, the store state — in particular the cache —
is unchanged, no merged slice is produced, and `getRows` (the common path of
`bootstrap` / `setFilters` / `query`) propagates the same error. -/
theorem fallback_failure_leaves_cache_unchanged (meta : Metadata)
    (fetch : PartitionDescriptor → Except String Slice) (st : StoreState)
    (filters : FilterState) (e : String)
    (hc : getA st.cache (stringifyFilters filters) = none)
    (hp : getA (partitionsByFilter meta.partitions) (stringifyFilters filters) = none)
    (hf : collectExcept (meta.partitions.map fetch) = .error e) :
    ensurePartitions meta fetch st filters = (.error e, st, meta.partitions.length) ∧
    getRows meta fetch st filters = (.error e, st, meta.partitions.length) := by
  have h1 : ensurePartitions meta fetch st filters
      = (.error e, st, meta.partitions.length) := by
    simp only [ensurePartitions, hc, hp, hf]
  exact ⟨h1, by simp only [getRows, h1]⟩

/-! ### Concrete store fixtures for the witnesses -/

def sliceA : Slice :=
  ⟨["date", "spend"],
    [[Cell.str "2024-01", Cell.num 10], [Cell.str "2024-01", Cell.num 20]]⟩

def sliceB : Slice :=
  ⟨["date", "spend"], [[Cell.str "2024-02", Cell.num 30]]⟩

def partA : PartitionDescriptor :=
  ⟨[("date", FilterVal.cellv (Cell.str "2024-01"))], "a.json"⟩

def partB : PartitionDescriptor :=
  ⟨[("date", FilterVal.cellv (Cell.str "2024-02"))], "b.json"⟩

def metaW : Metadata := ⟨[partA, partB], "json"⟩

def fetchW : PartitionDescriptor → Except String Slice :=
  fun p => if p.path = "a.json" then .ok sliceA else .ok sliceB

def fetchFailW : PartitionDescriptor → Except String Slice :=
  fun p =>
    if p.path = "a.json" then .ok sliceA
    else .error "Failed to download ./data/b.json"

def filtersNoMatch : FilterState := [("date", FilterVal.cellv (Cell.str "2099-01"))]

/-- C4 witness: `{date: "2099-01"}` matches no partition, so both declared
partitions are fetched and merged; the merged slice has the first partition's
columns and 2 + 1 = 3 rows, and is cached under the original signature. -/
theorem fallback_merges_all_partitions_w :
    getA (StoreState.mk []).cache (stringifyFilters filtersNoMatch) = none ∧
    getA (partitionsByFilter metaW.partitions) (stringifyFilters filtersNoMatch) = none ∧
    collectExcept (metaW.partitions.map fetchW) = .ok [sliceA, sliceB] ∧
    (ensurePartitions metaW fetchW (StoreState.mk []) filtersNoMatch =
        (.ok (mergeSlices [sliceA, sliceB]),
          ⟨setA (StoreState.mk []).cache (stringifyFilters filtersNoMatch)
            (mergeSlices [sliceA, sliceB])⟩,
          metaW.partitions.length) ∧
      getA (setA (StoreState.mk []).cache (stringifyFilters filtersNoMatch)
          (mergeSlices [sliceA, sliceB])) (stringifyFilters filtersNoMatch)
        = some (mergeSlices [sliceA, sliceB]) ∧
      (mergeSlices [sliceA, sliceB]).data.length
        = (([sliceA, sliceB] : List Slice).map (fun s => s.data.length)).sum ∧
      ∀ s rest, ([sliceA, sliceB] : List Slice) = s :: rest →
        (mergeSlices [sliceA, sliceB]).columns = s.columns) ∧
    (mergeSlices [sliceA, sliceB]).data.length = 3 :=
  ⟨rfl, rfl, rfl,
    fallback_merges_all_partitions metaW fetchW (StoreState.mk []) filtersNoMatch
      [sliceA, sliceB] rfl rfl rfl,
    rfl⟩

/-- C5 witness: resolving `partA.filters` on an empty cache fetches once and
caches; resolving the same signature again returns the identical slice from
the cache with zero downloads. -/
theorem resolve_twice_returns_cached_slice_w :
    ensurePartitions metaW fetchW (StoreState.mk []) partA.filters
        = (.ok sliceA, StoreState.mk [(stringifyFilters partA.filters, sliceA)], 1) ∧
    (ensurePartitions metaW fetchW
          (StoreState.mk [(stringifyFilters partA.filters, sliceA)]) partA.filters
        = (.ok sliceA, StoreState.mk [(stringifyFilters partA.filters, sliceA)], 0) ∧
      ∀ k v, getA (StoreState.mk []).cache k = some v →
        getA (StoreState.mk [(stringifyFilters partA.filters, sliceA)]).cache k
          = some v) :=
  ⟨rfl,
    resolve_twice_returns_cached_slice metaW fetchW (StoreState.mk [])
      partA.filters sliceA
      (StoreState.mk [(stringifyFilters partA.filters, sliceA)]) 1 rfl⟩

/-- C6 witness: with partition `b.json` failing, the fallback resolution for
`{date: "2099-01"}` rejects with that partition's error, the cache stays
empty, and `getRows` propagates the same error. -/
theorem fallback_failure_leaves_cache_unchanged_w :
    getA (StoreState.mk []).cache (stringifyFilters filtersNoMatch) = none ∧
    getA (partitionsByFilter metaW.partitions) (stringifyFilters filtersNoMatch) = none ∧
    collectExcept (metaW.partitions.map fetchFailW)
      = .error "Failed to download ./data/b.json" ∧
    (ensurePartitions metaW fetchFailW (StoreState.mk []) filtersNoMatch
        = (.error "Failed to download ./data/b.json", StoreState.mk [],
            metaW.partitions.length) ∧
      getRows metaW fetchFailW (StoreState.mk []) filtersNoMatch
        = (.error "Failed to download ./data/b.json", StoreState.mk [],
            metaW.partitions.length)) :=
  ⟨rfl, rfl, rfl,
    fallback_failure_leaves_cache_unchanged metaW fetchFailW (StoreState.mk [])
      filtersNoMatch "Failed to download ./data/b.json" rfl rfl rfl⟩

end FrontendDataLoader
